import Mathlib

/-!
Verification of the arithmetic-series abstract list implementation
(generic/tclArithSeries.c) against its design specification.

The concrete representations and operations below are shallow embeddings of
the C functions.  Tcl_WideInt arithmetic is embedded as Int (overflow is out
of scope of the claims considered), C integer division (which truncates
toward zero) as Int.tdiv, and IEEE doubles are idealized as exact rationals.
A NULL pointer argument or NULL cache is embedded as none.  Where the C code
would exhibit undefined behaviour (reading an uninitialized local, integer
division by zero, converting a non-finite double to an integer) the embedded
operation returns a distinguished uninit outcome.
-/

/-- Embeds ArithSeriesLen (tclArithSeries.c lines 108-116).  C `/` on
Tcl_WideInt truncates toward zero, hence Int.tdiv.  Note the code returns
the sentinel -1 when the computed length is negative. -/
def ArithSeriesLen (start end_ step : Int) : Int :=
  if step = 0 then 0
  else
    let len := 1 + (end_ - start).tdiv step
    if len < 0 then -1 else len

/-- Integer-variant concrete representation (struct ArithSeries): start, end,
step and len are Tcl_WideInt fields; elements is the optional cache of
materialized element values (none embeds a NULL pointer). -/
structure ArithSeriesInt where
  start : Int
  end_ : Int
  step : Int
  len : Int
  elements : Option (List Int)
  deriving DecidableEq

/-- Double-variant concrete representation (struct ArithSeriesDbl); the three
double fields are idealized as exact rationals. -/
structure ArithSeriesDbl where
  start : ℚ
  end_ : ℚ
  step : ℚ
  len : Int
  elements : Option (List ℚ)
  deriving DecidableEq

/-- Embeds TclArithSeriesObjLength (lines 450-454), integer variant. -/
def TclArithSeriesObjLength (s : ArithSeriesInt) : Int := s.len

/-- Embeds TclArithSeriesObjLength for the double variant. -/
def TclArithSeriesObjLengthDbl (s : ArithSeriesDbl) : Int := s.len

/-- Embeds TclArithSeriesObjIndex (lines 478-498), integer variant: an index
outside [0, len) returns TCL_ERROR; otherwise the element is
Start + (Step * index) (macro ArithSeriesIndexM, lines 46-50), computed in
the integer domain.  The function inspects the representation only. -/
def TclArithSeriesObjIndex (s : ArithSeriesInt) (index : Int) : Except Unit Int :=
  if index < 0 ∨ s.len ≤ index then .error ()
  else .ok (s.start + index * s.step)

/-- Embeds TclArithSeriesObjIndex for the double variant: the element is
start + (index * step) computed in the floating domain (idealized as ℚ),
with no promotion to or from the integer domain. -/
def TclArithSeriesObjIndexDbl (s : ArithSeriesDbl) (index : Int) : Except Unit ℚ :=
  if index < 0 ∨ s.len ≤ index then .error ()
  else .ok (s.start + (index : ℚ) * s.step)

/-- Embeds DupArithSeriesRep (lines 136-147): the struct assignment
*copyArithSeries = *srcArithSeries copies every field of the source
representation into the freshly allocated copy, including the elements
cache pointer. -/
def DupArithSeriesRep (src : ArithSeriesInt) : ArithSeriesInt :=
  { start := src.start, end_ := src.end_, step := src.step,
    len := src.len, elements := src.elements }

/-- Modelled from the spec: ListSizeT_MAX, the host's maximum representable
container size (tcl.h is not part of this repository); for the
TCL_MAJOR_VERSION < 9 build this is the maximum of a 32-bit signed int. -/
def listSizeTMax : Int := 2 ^ 31 - 1

/-- Outcome of construction: TCL_ERROR, TCL_OK with a plain empty object,
TCL_OK with an arithmetic-series object, or undefined behaviour (the C code
reads an uninitialized local variable). -/
inductive ConstructOutcome (σ : Type) where
  | uninit
  | err
  | okEmpty
  | okSeries (s : σ)
  deriving DecidableEq

/-- Embeds TclNewArithSeriesInt (lines 200-227): a negative len argument
requests recomputation through ArithSeriesLen; a length that is not positive
collapses to a plain empty object. -/
def TclNewArithSeriesInt (start end_ step len : Int) : ConstructOutcome ArithSeriesInt :=
  let length := if 0 ≤ len then len else ArithSeriesLen start end_ step
  if length ≤ 0 then .okEmpty
  else .okSeries ⟨start, end_, step, length, none⟩

/-- Truncation of a rational toward zero, embedding the C conversion of a
double value to Tcl_WideInt. -/
def ratTrunc (q : ℚ) : Int := q.num.tdiv (q.den : Int)

/-- Embeds TclNewArithSeriesDbl (lines 247-274); the ArithSeriesLen call
receives the double arguments implicitly converted to Tcl_WideInt. -/
def TclNewArithSeriesDbl (start end_ step : ℚ) (len : Int) : ConstructOutcome ArithSeriesDbl :=
  let length := if 0 ≤ len then len
    else ArithSeriesLen (ratTrunc start) (ratTrunc end_) (ratTrunc step)
  if length ≤ 0 then .okEmpty
  else .okSeries ⟨start, end_, step, length, none⟩

/-- Embeds TclNewArithSeriesObj (lines 346-431) specialized to
useDoubles = 0.  Arguments are the already-decoded numeric contents of the
Tcl_Obj arguments (none embeds a NULL pointer; decoding them is the host's
numeric abstraction, out of scope).  A supplied step of zero returns TCL_OK
with a plain empty object before anything else is examined.  Where the C
code would read an uninitialized local (step or len neither supplied nor
inferable) the outcome is uninit.  The length guard is the
TCL_MAJOR_VERSION < 9 branch. -/
def TclNewArithSeriesObjInt (startObj endObj stepObj lenObj : Option Int) :
    ConstructOutcome ArithSeriesInt :=
  let start := startObj.getD 0
  if stepObj = some 0 then .okEmpty
  else
    let step1 : Option Int :=
      if startObj.isSome ∧ endObj.isSome ∧ stepObj.isNone then
        some (if start < endObj.getD 0 then 1 else -1)
      else stepObj
    let len1 : Option Int :=
      if startObj.isSome ∧ endObj.isSome ∧ lenObj.isNone then
        match endObj, step1 with
        | some e, some st => some ((e - start + st).tdiv st)
        | _, _ => none
      else lenObj
    match step1, len1 with
    | some st, some len =>
      let e := match endObj with
        | some e => e
        | none => start + st * (len - 1)
      if listSizeTMax < len then .err
      else TclNewArithSeriesInt start e st len
    | _, _ => .uninit

/-- Embeds TclNewArithSeriesObj specialized to useDoubles = 1.  The len
argument is parsed as a Tcl_WideInt even in double mode; an inferred length
is the double quotient truncated toward zero, and an inferred end converts
len - 1 to double. -/
def TclNewArithSeriesObjDbl (startObj endObj stepObj : Option ℚ) (lenObj : Option Int) :
    ConstructOutcome ArithSeriesDbl :=
  let start := startObj.getD 0
  if stepObj = some 0 then .okEmpty
  else
    let step1 : Option ℚ :=
      if startObj.isSome ∧ endObj.isSome ∧ stepObj.isNone then
        some (if start < endObj.getD 0 then 1 else -1)
      else stepObj
    let len1 : Option Int :=
      if startObj.isSome ∧ endObj.isSome ∧ lenObj.isNone then
        match endObj, step1 with
        | some e, some st => some (ratTrunc ((e - start + st) / st))
        | _, _ => none
      else lenObj
    match step1, len1 with
    | some st, some len =>
      let e := match endObj with
        | some e => e
        | none => start + st * ((len - 1 : Int) : ℚ)
      if listSizeTMax < len then .err
      else TclNewArithSeriesDbl start e st len
    | _, _ => .uninit

/-- Result of the range and reverse operations: the canonical empty object
of length zero, a NULL return (construction failure), a freshly allocated
series object, the source object mutated in place, or undefined behaviour
(the C code would read an uninitialized Tcl_Obj pointer after an ignored
index failure, or divide by a zero step). -/
inductive RangeResult (σ : Type) where
  | emptyObj
  | nullObj
  | undefR
  | newSeries (s : σ)
  | inPlace (s : σ)
  deriving DecidableEq

/-- The series representation carried by a range or reverse result, when
there is one. -/
def resultRep {σ : Type} : RangeResult σ → Option σ
  | .newSeries t => some t
  | .inPlace t => some t
  | _ => none

/-- Embeds TclArithSeriesObjRange (lines 614-694), integer variant.  The
shared flag embeds the host sharing signal Tcl_IsShared(obj) ||
refCount > 1.  The second component is the source object's representation
after the call: untouched on every path except the in-place one. -/
def TclArithSeriesObjRange (shared : Bool) (s : ArithSeriesInt)
    (fromIdx toIdx : Int) : RangeResult ArithSeriesInt × ArithSeriesInt :=
  let fromIdx' := if fromIdx < 0 then 0 else fromIdx
  if fromIdx' > toIdx then (.emptyObj, s)
  else if s.len ≤ toIdx then (.undefR, s)
  else
    let startv := s.start + fromIdx' * s.step
    let endv := s.start + toIdx * s.step
    let stepv := s.step
    if shared then
      (match TclNewArithSeriesObjInt (some startv) (some endv) (some stepv) none with
        | .okEmpty => .emptyObj
        | .okSeries t => .newSeries t
        | .err => .nullObj
        | .uninit => .undefR, s)
    else if stepv = 0 then (.undefR, s)
    else
      let s' : ArithSeriesInt :=
        ⟨startv, endv, stepv, (endv - startv + stepv).tdiv stepv, none⟩
      (.inPlace s', s')

/-- Embeds TclArithSeriesObjRange for the double variant; the recomputed
length is the double quotient truncated toward zero. -/
def TclArithSeriesObjRangeDbl (shared : Bool) (s : ArithSeriesDbl)
    (fromIdx toIdx : Int) : RangeResult ArithSeriesDbl × ArithSeriesDbl :=
  let fromIdx' := if fromIdx < 0 then 0 else fromIdx
  if fromIdx' > toIdx then (.emptyObj, s)
  else if s.len ≤ toIdx then (.undefR, s)
  else
    let startv := s.start + (fromIdx' : ℚ) * s.step
    let endv := s.start + (toIdx : ℚ) * s.step
    let stepv := s.step
    if shared then
      (match TclNewArithSeriesObjDbl (some startv) (some endv) (some stepv) none with
        | .okEmpty => .emptyObj
        | .okSeries t => .newSeries t
        | .err => .nullObj
        | .uninit => .undefR, s)
    else if stepv = 0 then (.undefR, s)
    else
      let s' : ArithSeriesDbl :=
        ⟨startv, endv, stepv, ratTrunc ((endv - startv + stepv) / stepv), none⟩
      (.inPlace s', s')

/-- Embeds TclArithSeriesObjReverse (lines 700-785), integer variant: the
new start is element len-1, the new end element 0, the step negated, the
length unchanged; in place only when unshared, and then the cache is
dropped. -/
def TclArithSeriesObjReverse (shared : Bool) (s : ArithSeriesInt) :
    RangeResult ArithSeriesInt × ArithSeriesInt :=
  if s.len < 1 then (.undefR, s)
  else
    let startv := s.start + (s.len - 1) * s.step
    let endv := s.start
    let stepv := -s.step
    if shared then
      (match TclNewArithSeriesObjInt (some startv) (some endv) (some stepv) (some s.len) with
        | .okEmpty => .emptyObj
        | .okSeries t => .newSeries t
        | .err => .nullObj
        | .uninit => .undefR, s)
    else
      let s' : ArithSeriesInt := ⟨startv, endv, stepv, s.len, none⟩
      (.inPlace s', s')

/-- Embeds TclArithSeriesObjReverse for the double variant. -/
def TclArithSeriesObjReverseDbl (shared : Bool) (s : ArithSeriesDbl) :
    RangeResult ArithSeriesDbl × ArithSeriesDbl :=
  if s.len < 1 then (.undefR, s)
  else
    let startv := s.start + ((s.len - 1 : Int) : ℚ) * s.step
    let endv := s.start
    let stepv := -s.step
    if shared then
      (match TclNewArithSeriesObjDbl (some startv) (some endv) (some stepv) (some s.len) with
        | .okEmpty => .emptyObj
        | .okSeries t => .newSeries t
        | .err => .nullObj
        | .uninit => .undefR, s)
    else
      let s' : ArithSeriesDbl := ⟨startv, endv, stepv, s.len, none⟩
      (.inPlace s', s')

/-- Observable element sequence of an integer progression:
LIST[i] = START + (STEP * i) for i in [0, len). -/
def elemListInt (s : ArithSeriesInt) : List Int :=
  (List.range s.len.toNat).map fun i => s.start + (i : Int) * s.step

/-- Observable element sequence of a double progression. -/
def elemListDbl (s : ArithSeriesDbl) : List ℚ :=
  (List.range s.len.toNat).map fun i => s.start + (i : ℚ) * s.step

/-- Spec-side formulation (refinement target, following the words of the
spec): the elements' text forms in order, separated by single spaces. -/
def sepBySpaceSpec : List (List Char) → List Char
  | [] => []
  | [x] => x
  | x :: xs => x ++ [' '] ++ sepBySpaceSpec xs

/-- Embeds UpdateStringOfArithSeries (lines 858-901) over an abstract
element-to-text host primitive fmt (pass 1 only sizes the buffer): a length
that is not positive yields the empty string representation with no
writing; otherwise pass 2 writes each element's text followed by one space
and the final trailing space is dropped (the terminating NUL overwrites it
and the recorded length is decremented).  The string representation is
embedded as its character list. -/
def UpdateStringOfArithSeries {α : Type} (fmt : α → List Char) (llen : Int)
    (elems : List α) : List Char :=
  if llen ≤ 0 then []
  else ((elems.map fun e => fmt e ++ [' ']).flatten).dropLast

/-- Canonical text form of an integer progression; an integer element's
minimal text form is its decimal representation (the host's number-to-text
primitive). -/
def textFormInt (s : ArithSeriesInt) : List Char :=
  UpdateStringOfArithSeries (fun x : Int => (toString x).data) s.len (elemListInt s)

/-- Canonical text form of a double progression, over an abstract
element-formatting host primitive (double-to-text rendering is a host
formatting primitive, out of scope). -/
def textFormDbl (fmt : ℚ → List Char) (s : ArithSeriesDbl) : List Char :=
  UpdateStringOfArithSeries fmt s.len (elemListDbl s)

/-- C1 as stated is false on the code: at start 0, end -5, step 1 the bounds
calculator returns the sentinel -1 (documented in its own comment block as
the unbounded marker), not a value clamped to 0, so its result is not
always nonnegative. -/
theorem arithSeriesLen_claim1_counterexample :
    ArithSeriesLen 0 (-5) 1 = -1 ∧ ¬ 0 ≤ ArithSeriesLen 0 (-5) 1 := by
  decide

/-- C1 (amended): if step = 0 the result is 0; otherwise the code computes
len = (end - start)/step + 1 with C truncating division and, when that
value is negative, returns the sentinel -1 instead of clamping to 0; in the
ascending case (0 < step and start <= end) truncating and floor division
agree, so the result is floor((end - start)/step) + 1 and is nonnegative. -/
theorem arithSeriesLen_claim1_amended (s e st : Int) :
    ArithSeriesLen s e st =
      (if st = 0 then 0
       else if 1 + (e - s).tdiv st < 0 then -1 else 1 + (e - s).tdiv st) ∧
    (0 < st → s ≤ e →
      ArithSeriesLen s e st = (e - s).fdiv st + 1 ∧ 0 ≤ ArithSeriesLen s e st) := by
  constructor
  · simp [ArithSeriesLen]
  · intro hst hse
    have hnum : (0 : Int) ≤ e - s := by omega
    have htd : (e - s).tdiv st = (e - s) / st :=
      Int.tdiv_eq_ediv hnum (le_of_lt hst)
    have hfd : (e - s).fdiv st = (e - s) / st :=
      Int.fdiv_eq_ediv _ (le_of_lt hst)
    have hq : (0 : Int) ≤ (e - s) / st := Int.ediv_nonneg hnum (le_of_lt hst)
    have hst0 : st ≠ 0 := by omega
    constructor
    · simp only [ArithSeriesLen, hst0, if_neg, htd, hfd]
      simp only [if_false]
      have : ¬ 1 + (e - s) / st < 0 := by omega
      simp [this]
      omega
    · simp only [ArithSeriesLen, hst0, htd]
      simp only [if_false]
      have : ¬ 1 + (e - s) / st < 0 := by omega
      simp [this]
      omega

/-- C1 amended, witnessed at start 0, end 10, step 2. -/
theorem arithSeriesLen_claim1_amended_witness :
    ArithSeriesLen 0 10 2 = ((10 : Int) - 0).fdiv 2 + 1 ∧ 0 ≤ ArithSeriesLen 0 10 2 :=
  (arithSeriesLen_claim1_amended 0 10 2).2 (by decide) (by decide)

/-- C2: the code contradicts the specified duplication contract.  On a
progression whose cache is populated, DupArithSeriesRep copies the cache
pointer into the duplicate (struct assignment of every field) instead of
leaving the duplicate's cache empty; the scalar fields are copied as
specified. -/
theorem dupArithSeriesRep_claim2_codebug :
    (DupArithSeriesRep ⟨1, 3, 1, 3, some [1, 2, 3]⟩).elements = some [1, 2, 3] ∧
    (DupArithSeriesRep ⟨1, 3, 1, 3, some [1, 2, 3]⟩).elements ≠ none ∧
    (DupArithSeriesRep ⟨1, 3, 1, 3, some [1, 2, 3]⟩).start = 1 ∧
    (DupArithSeriesRep ⟨1, 3, 1, 3, some [1, 2, 3]⟩).end_ = 3 ∧
    (DupArithSeriesRep ⟨1, 3, 1, 3, some [1, 2, 3]⟩).step = 1 ∧
    (DupArithSeriesRep ⟨1, 3, 1, 3, some [1, 2, 3]⟩).len = 3 := by
  decide

/-- C3 as stated is false on the code: a supplied step of zero does not
surface an InvalidStep error; construction returns TCL_OK carrying a plain
empty object. -/
theorem zeroStep_claim3_counterexample :
    TclNewArithSeriesObjInt (some 0) (some 10) (some 0) none = .okEmpty ∧
    (ConstructOutcome.okEmpty : ConstructOutcome ArithSeriesInt) ≠ .err := by
  decide

/-- C3 (amended): when the supplied step resolves to zero where a nonzero
step is required, construction succeeds immediately with the canonical
empty container and no progression is produced; no error is reported, in
either numeric domain and whatever the other arguments. -/
theorem zeroStep_claim3_amended (so eo lo : Option Int)
    (so2 eo2 : Option ℚ) (lo2 : Option Int) :
    TclNewArithSeriesObjInt so eo (some 0) lo = .okEmpty ∧
    TclNewArithSeriesObjDbl so2 eo2 (some 0) lo2 = .okEmpty := by
  constructor
  · simp [TclNewArithSeriesObjInt]
  · simp [TclNewArithSeriesObjDbl]

/-- Helper: the constructor with all four arguments supplied and a nonzero
step checks the length guard and dispatches to TclNewArithSeriesInt. -/
theorem newObjInt_all_given {a b c l : Int} (hc : c ≠ 0) :
    TclNewArithSeriesObjInt (some a) (some b) (some c) (some l) =
      if listSizeTMax < l then .err else TclNewArithSeriesInt a b c l := by
  simp [TclNewArithSeriesObjInt, hc]

/-- Helper: the constructor with start, end and a nonzero step supplied but
no length infers the length by truncating division. -/
theorem newObjInt_no_len {a b c : Int} (hc : c ≠ 0) :
    TclNewArithSeriesObjInt (some a) (some b) (some c) none =
      if listSizeTMax < (b - a + c).tdiv c then .err
      else TclNewArithSeriesInt a b c ((b - a + c).tdiv c) := by
  simp [TclNewArithSeriesObjInt, hc]

/-- Helper: double-variant constructor with all arguments supplied. -/
theorem newObjDbl_all_given {a b c : ℚ} {l : Int} (hc : c ≠ 0) :
    TclNewArithSeriesObjDbl (some a) (some b) (some c) (some l) =
      if listSizeTMax < l then .err else TclNewArithSeriesDbl a b c l := by
  simp [TclNewArithSeriesObjDbl, hc]

/-- Helper: double-variant constructor with no length supplied. -/
theorem newObjDbl_no_len {a b c : ℚ} (hc : c ≠ 0) :
    TclNewArithSeriesObjDbl (some a) (some b) (some c) none =
      if listSizeTMax < ratTrunc ((b - a + c) / c) then .err
      else TclNewArithSeriesDbl a b c (ratTrunc ((b - a + c) / c)) := by
  simp [TclNewArithSeriesObjDbl, hc]

/-- Helper: truncating an integer-valued rational returns that integer. -/
theorem ratTrunc_intCast (n : Int) : ratTrunc (n : ℚ) = n := by
  simp [ratTrunc]

/-- C4: a shared progression is never mutated by range or reverse: the
source representation after the call equals the one before (hence its
start, end, step, count and element sequence are unchanged) and the result
is never the in-place one; an exclusively owned progression is reversed in
place.  Hypotheses keep every case inside defined behaviour. -/
theorem sharedFrame_claim4 (s : ArithSeriesInt) (d : ArithSeriesDbl) (f tIdx : Int) :
    (tIdx < s.len →
      (TclArithSeriesObjRange true s f tIdx).2 = s ∧
      ∀ x, (TclArithSeriesObjRange true s f tIdx).1 ≠ .inPlace x) ∧
    (1 ≤ s.len →
      (TclArithSeriesObjReverse true s).2 = s ∧
      ∀ x, (TclArithSeriesObjReverse true s).1 ≠ .inPlace x) ∧
    (tIdx < d.len →
      (TclArithSeriesObjRangeDbl true d f tIdx).2 = d ∧
      ∀ x, (TclArithSeriesObjRangeDbl true d f tIdx).1 ≠ .inPlace x) ∧
    (1 ≤ d.len →
      (TclArithSeriesObjReverseDbl true d).2 = d ∧
      ∀ x, (TclArithSeriesObjReverseDbl true d).1 ≠ .inPlace x) ∧
    (1 ≤ s.len →
      (TclArithSeriesObjReverse false s).1 =
        .inPlace ⟨s.start + (s.len - 1) * s.step, s.start, -s.step, s.len, none⟩) := by
  refine ⟨fun _ => ⟨?_, fun x => ?_⟩, fun _ => ⟨?_, fun x => ?_⟩, fun _ => ⟨?_, fun x => ?_⟩,
    fun _ => ⟨?_, fun x => ?_⟩, fun h => ?_⟩
  · unfold TclArithSeriesObjRange
    repeat' split
    all_goals try simp_all
    all_goals first | omega | ((repeat' split) <;> simp_all)
  · unfold TclArithSeriesObjRange
    repeat' split
    all_goals try simp_all
    all_goals first | omega | ((repeat' split) <;> simp_all)
  · unfold TclArithSeriesObjReverse
    repeat' split
    all_goals try simp_all
  · unfold TclArithSeriesObjReverse
    repeat' split
    all_goals try simp_all
    all_goals first | omega | ((repeat' split) <;> simp_all)
  · unfold TclArithSeriesObjRangeDbl
    repeat' split
    all_goals try simp_all
    all_goals first | omega | ((repeat' split) <;> simp_all)
  · unfold TclArithSeriesObjRangeDbl
    repeat' split
    all_goals try simp_all
    all_goals first | omega | ((repeat' split) <;> simp_all)
  · unfold TclArithSeriesObjReverseDbl
    repeat' split
    all_goals try simp_all
  · unfold TclArithSeriesObjReverseDbl
    repeat' split
    all_goals try simp_all
    all_goals first | omega | ((repeat' split) <;> simp_all)
  · unfold TclArithSeriesObjReverse
    rw [if_neg (by omega)]
    simp

/-- C4, witnessed at a shared five-element ascending progression. -/
theorem sharedFrame_claim4_witness :
    (TclArithSeriesObjRange true ⟨0, 4, 1, 5, none⟩ 0 2).2 = ⟨0, 4, 1, 5, none⟩ ∧
    (TclArithSeriesObjReverse true ⟨0, 4, 1, 5, none⟩).2 = ⟨0, 4, 1, 5, none⟩ :=
  ⟨((sharedFrame_claim4 ⟨0, 4, 1, 5, none⟩ ⟨0, 4, 1, 5, none⟩ 0 2).1 (by decide)).1,
   ((sharedFrame_claim4 ⟨0, 4, 1, 5, none⟩ ⟨0, 4, 1, 5, none⟩ 0 2).2.1 (by decide)).1⟩

/-- C5: indexing fails with the index error exactly when the index is
outside [0, count), and otherwise returns start + index * step computed in
the progression's own domain (integer arithmetic for the integer variant,
floating arithmetic — idealized as exact rationals — for the double
variant); the operation reads the representation only. -/
theorem indexAt_claim5 (s : ArithSeriesInt) (d : ArithSeriesDbl) (i : Int) :
    (TclArithSeriesObjIndex s i = .error () ↔ i < 0 ∨ s.len ≤ i) ∧
    (0 ≤ i → i < s.len → TclArithSeriesObjIndex s i = .ok (s.start + i * s.step)) ∧
    (TclArithSeriesObjIndexDbl d i = .error () ↔ i < 0 ∨ d.len ≤ i) ∧
    (0 ≤ i → i < d.len → TclArithSeriesObjIndexDbl d i = .ok (d.start + (i : ℚ) * d.step)) := by
  refine ⟨?_, fun h1 h2 => ?_, ?_, fun h1 h2 => ?_⟩
  · by_cases h : i < 0 ∨ s.len ≤ i <;> simp [TclArithSeriesObjIndex, h]
  · simp [TclArithSeriesObjIndex, show ¬(i < 0 ∨ s.len ≤ i) by omega]
  · by_cases h : i < 0 ∨ d.len ≤ i <;> simp [TclArithSeriesObjIndexDbl, h]
  · simp [TclArithSeriesObjIndexDbl, show ¬(i < 0 ∨ d.len ≤ i) by omega]

/-- C5, witnessed at index 2 of five-element progressions. -/
theorem indexAt_claim5_witness :
    TclArithSeriesObjIndex ⟨0, 4, 1, 5, none⟩ 2 = .ok (0 + 2 * 1) ∧
    TclArithSeriesObjIndexDbl ⟨0, 4, 1, 5, none⟩ 2 = .ok (0 + ((2 : Int) : ℚ) * 1) :=
  ⟨(indexAt_claim5 ⟨0, 4, 1, 5, none⟩ ⟨0, 4, 1, 5, none⟩ 2).2.1 (by decide) (by decide),
   (indexAt_claim5 ⟨0, 4, 1, 5, none⟩ ⟨0, 4, 1, 5, none⟩ 2).2.2.2 (by decide) (by decide)⟩

/-- Helper: the clamp the range operation applies to its from index is
max fromIdx 0. -/
theorem range_clamp_eq_max (f : Int) : (if f < 0 then (0 : Int) else f) = max f 0 := by
  split <;> omega

/-- C8: range first clamps the from index to be nonnegative — the call is
indistinguishable from one made with max fromIdx 0 — and when the clamped
from index exceeds the to index it returns the canonical empty container
(of length zero) with the source representation untouched, in both numeric
domains and independently of sharing. -/
theorem rangeClamp_claim8 (sh : Bool) (s : ArithSeriesInt) (d : ArithSeriesDbl) (a b : Int) :
    TclArithSeriesObjRange sh s a b = TclArithSeriesObjRange sh s (max a 0) b ∧
    (b < max a 0 → TclArithSeriesObjRange sh s a b = (.emptyObj, s)) ∧
    TclArithSeriesObjRangeDbl sh d a b = TclArithSeriesObjRangeDbl sh d (max a 0) b ∧
    (b < max a 0 → TclArithSeriesObjRangeDbl sh d a b = (.emptyObj, d)) := by
  have h2 : (if max a 0 < 0 then (0 : Int) else max a 0) = max a 0 := by
    rw [if_neg (by omega)]
  refine ⟨?_, fun hb => ?_, ?_, fun hb => ?_⟩
  · unfold TclArithSeriesObjRange
    rw [range_clamp_eq_max, h2]
  · unfold TclArithSeriesObjRange
    rw [range_clamp_eq_max, if_pos (by omega)]
  · unfold TclArithSeriesObjRangeDbl
    rw [range_clamp_eq_max, h2]
  · unfold TclArithSeriesObjRangeDbl
    rw [range_clamp_eq_max, if_pos (by omega)]

/-- C8, witnessed: a from index above the to index yields the empty
container and an unchanged source. -/
theorem rangeClamp_claim8_witness :
    TclArithSeriesObjRange false ⟨0, 4, 1, 5, none⟩ 5 2 = (.emptyObj, ⟨0, 4, 1, 5, none⟩) ∧
    TclArithSeriesObjRangeDbl false ⟨0, 4, 1, 5, none⟩ 5 2 = (.emptyObj, ⟨0, 4, 1, 5, none⟩) :=
  ⟨(rangeClamp_claim8 false ⟨0, 4, 1, 5, none⟩ ⟨0, 4, 1, 5, none⟩ 5 2).2.1 (by decide),
   (rangeClamp_claim8 false ⟨0, 4, 1, 5, none⟩ ⟨0, 4, 1, 5, none⟩ 5 2).2.2.2 (by decide)⟩

/-- Helper: a supplied zero step short-circuits the integer constructor. -/
theorem newObjInt_step_zero (so eo lo : Option Int) :
    TclNewArithSeriesObjInt so eo (some 0) lo = .okEmpty := by
  simp [TclNewArithSeriesObjInt]

/-- Helper: a supplied zero step short-circuits the double constructor. -/
theorem newObjDbl_step_zero (so eo : Option ℚ) (lo : Option Int) :
    TclNewArithSeriesObjDbl so eo (some 0) lo = .okEmpty := by
  simp [TclNewArithSeriesObjDbl]

/-- Helper: the integer core constructor with a positive length builds the
representation with exactly the given fields and no cache. -/
theorem newIntCore_pos {a b c l : Int} (hl : 0 < l) :
    TclNewArithSeriesInt a b c l = .okSeries ⟨a, b, c, l, none⟩ := by
  simp only [TclNewArithSeriesInt]
  rw [if_pos (show (0 : Int) ≤ l by omega), if_neg (show ¬ l ≤ 0 by omega)]

/-- Helper: the double core constructor with a positive length builds the
representation with exactly the given fields and no cache. -/
theorem newDblCore_pos {a b c : ℚ} {l : Int} (hl : 0 < l) :
    TclNewArithSeriesDbl a b c l = .okSeries ⟨a, b, c, l, none⟩ := by
  simp only [TclNewArithSeriesDbl]
  rw [if_pos (show (0 : Int) ≤ l by omega), if_neg (show ¬ l ≤ 0 by omega)]


/-- Helper: whenever reverse yields a series representation (fresh or in
place), the source had at least one element and the result is exactly the
reversed representation: start is element len-1, end is element 0, the step
is negated, the length unchanged, the cache empty. -/
theorem reverse_rep_eq {sh : Bool} {s t : ArithSeriesInt}
    (h : resultRep (TclArithSeriesObjReverse sh s).1 = some t) :
    1 ≤ s.len ∧
    t = ⟨s.start + (s.len - 1) * s.step, s.start, -s.step, s.len, none⟩ := by
  by_cases hl : s.len < 1
  · simp only [TclArithSeriesObjReverse, if_pos hl] at h
    simp [resultRep] at h
  · simp only [TclArithSeriesObjReverse, if_neg hl] at h
    cases sh
    · simp only [Bool.false_eq_true, if_false, resultRep, Option.some.injEq] at h
      exact ⟨by omega, h.symm⟩
    · simp only [if_pos] at h
      by_cases hc : -s.step = 0
      · rw [hc, newObjInt_step_zero] at h
        simp [resultRep] at h
      · rw [newObjInt_all_given hc, newIntCore_pos (show (0 : Int) < s.len by omega)] at h
        by_cases hg : listSizeTMax < s.len
        · rw [if_pos hg] at h
          simp [resultRep] at h
        · rw [if_neg hg] at h
          simp only [resultRep, Option.some.injEq] at h
          exact ⟨by omega, h.symm⟩

/-- Helper: double-variant analogue of reverse_rep_eq. -/
theorem reverse_rep_eq_dbl {sh : Bool} {s t : ArithSeriesDbl}
    (h : resultRep (TclArithSeriesObjReverseDbl sh s).1 = some t) :
    1 ≤ s.len ∧
    t = ⟨s.start + ((s.len - 1 : Int) : ℚ) * s.step, s.start, -s.step, s.len, none⟩ := by
  by_cases hl : s.len < 1
  · simp only [TclArithSeriesObjReverseDbl, if_pos hl] at h
    simp [resultRep] at h
  · simp only [TclArithSeriesObjReverseDbl, if_neg hl] at h
    cases sh
    · simp only [Bool.false_eq_true, if_false, resultRep, Option.some.injEq] at h
      exact ⟨by omega, h.symm⟩
    · simp only [if_pos] at h
      by_cases hc : -s.step = 0
      · rw [hc, newObjDbl_step_zero] at h
        simp [resultRep] at h
      · rw [newObjDbl_all_given hc, newDblCore_pos (show (0 : Int) < s.len by omega)] at h
        by_cases hg : listSizeTMax < s.len
        · rw [if_pos hg] at h
          simp [resultRep] at h
        · rw [if_neg hg] at h
          simp only [resultRep, Option.some.injEq] at h
          exact ⟨by omega, h.symm⟩

/-- Helper: whenever range yields a series representation (fresh or in
place), the clamped from index was within bounds, the step nonzero, and the
result has start element(from), end element(to), the same step, the length
recomputed to to - from + 1, and no cache. -/
theorem range_rep_eq {sh : Bool} {s t : ArithSeriesInt} {f b : Int}
    (h : resultRep (TclArithSeriesObjRange sh s f b).1 = some t) :
    max f 0 ≤ b ∧ b < s.len ∧ s.step ≠ 0 ∧
    t = ⟨s.start + max f 0 * s.step, s.start + b * s.step, s.step,
         b - max f 0 + 1, none⟩ := by
  by_cases h1 : max f 0 > b
  · simp only [TclArithSeriesObjRange, range_clamp_eq_max, if_pos h1] at h
    simp [resultRep] at h
  · by_cases h2 : s.len ≤ b
    · simp only [TclArithSeriesObjRange, range_clamp_eq_max, if_neg h1, if_pos h2] at h
      simp [resultRep] at h
    · simp only [TclArithSeriesObjRange, range_clamp_eq_max, if_neg h1, if_neg h2] at h
      have hlen : s.start + b * s.step - (s.start + max f 0 * s.step) + s.step
          = (b - max f 0 + 1) * s.step := by ring
      cases sh
      · by_cases hc : s.step = 0
        · simp only [Bool.false_eq_true, if_false, if_pos hc, resultRep] at h
          exact absurd h (by simp)
        · simp only [Bool.false_eq_true, if_false, if_neg hc, resultRep,
            Option.some.injEq] at h
          rw [hlen, Int.mul_tdiv_cancel _ hc] at h
          exact ⟨by omega, by omega, hc, h.symm⟩
      · simp only [if_pos] at h
        by_cases hc : s.step = 0
        · rw [hc, newObjInt_step_zero] at h
          simp [resultRep] at h
        · rw [newObjInt_no_len hc, hlen, Int.mul_tdiv_cancel _ hc,
            newIntCore_pos (show (0 : Int) < b - max f 0 + 1 by omega)] at h
          by_cases hg : listSizeTMax < b - max f 0 + 1
          · rw [if_pos hg] at h
            simp [resultRep] at h
          · rw [if_neg hg] at h
            simp only [resultRep, Option.some.injEq] at h
            exact ⟨by omega, by omega, hc, h.symm⟩

/-- Helper: double-variant analogue of range_rep_eq. -/
theorem range_rep_eq_dbl {sh : Bool} {s t : ArithSeriesDbl} {f b : Int}
    (h : resultRep (TclArithSeriesObjRangeDbl sh s f b).1 = some t) :
    max f 0 ≤ b ∧ b < s.len ∧ s.step ≠ 0 ∧
    t = ⟨s.start + ((max f 0 : Int) : ℚ) * s.step, s.start + (b : ℚ) * s.step, s.step,
         b - max f 0 + 1, none⟩ := by
  by_cases h1 : max f 0 > b
  · simp only [TclArithSeriesObjRangeDbl, range_clamp_eq_max, if_pos h1] at h
    simp [resultRep] at h
  · by_cases h2 : s.len ≤ b
    · simp only [TclArithSeriesObjRangeDbl, range_clamp_eq_max, if_neg h1, if_pos h2] at h
      simp [resultRep] at h
    · simp only [TclArithSeriesObjRangeDbl, range_clamp_eq_max, if_neg h1, if_neg h2] at h
      cases sh
      · by_cases hc : s.step = 0
        · simp only [Bool.false_eq_true, if_false, if_pos hc, resultRep] at h
          exact absurd h (by simp)
        · have hq : (s.start + (b : ℚ) * s.step - (s.start + ((max f 0 : Int) : ℚ) * s.step)
              + s.step) / s.step = ((b - max f 0 + 1 : Int) : ℚ) := by
            rw [div_eq_iff hc]
            push_cast
            ring
          simp only [Bool.false_eq_true, if_false, if_neg hc, resultRep,
            Option.some.injEq] at h
          rw [hq, ratTrunc_intCast] at h
          exact ⟨by omega, by omega, hc, h.symm⟩
      · simp only [if_pos] at h
        by_cases hc : s.step = 0
        · rw [hc, newObjDbl_step_zero] at h
          simp [resultRep] at h
        · have hq : (s.start + (b : ℚ) * s.step - (s.start + ((max f 0 : Int) : ℚ) * s.step)
              + s.step) / s.step = ((b - max f 0 + 1 : Int) : ℚ) := by
            rw [div_eq_iff hc]
            push_cast
            ring
          rw [newObjDbl_no_len hc, hq, ratTrunc_intCast,
            newDblCore_pos (show (0 : Int) < b - max f 0 + 1 by omega)] at h
          by_cases hg : listSizeTMax < b - max f 0 + 1
          · rw [if_pos hg] at h
            simp [resultRep] at h
          · rw [if_neg hg] at h
            simp only [resultRep, Option.some.injEq] at h
            exact ⟨by omega, by omega, hc, h.symm⟩

/-- C6: reversing twice restores the observable value: whenever reverse of
reverse yields a series (through fresh allocation or in place, in any
combination), it has the same count and the same element sequence as the
original progression, in both numeric domains. -/
theorem reverseInvolution_claim6 (s u v : ArithSeriesInt) (d e g : ArithSeriesDbl)
    (sh1 sh2 sh3 sh4 : Bool) :
    (resultRep (TclArithSeriesObjReverse sh1 s).1 = some u →
     resultRep (TclArithSeriesObjReverse sh2 u).1 = some v →
     v.len = s.len ∧ elemListInt v = elemListInt s) ∧
    (resultRep (TclArithSeriesObjReverseDbl sh3 d).1 = some e →
     resultRep (TclArithSeriesObjReverseDbl sh4 e).1 = some g →
     g.len = d.len ∧ elemListDbl g = elemListDbl d) := by
  constructor
  · intro h1 h2
    obtain ⟨hl1, hu⟩ := reverse_rep_eq h1
    obtain ⟨hl2, hv⟩ := reverse_rep_eq h2
    subst hv
    subst hu
    refine ⟨rfl, ?_⟩
    simp only [elemListInt]
    have hA : s.start + (s.len - 1) * s.step + (s.len - 1) * -s.step = s.start := by
      ring
    have hB : - -s.step = s.step := by
      ring
    rw [hA, hB]
  · intro h1 h2
    obtain ⟨hl1, he⟩ := reverse_rep_eq_dbl h1
    obtain ⟨hl2, hg⟩ := reverse_rep_eq_dbl h2
    subst hg
    subst he
    refine ⟨rfl, ?_⟩
    simp only [elemListDbl]
    have hA : d.start + ((d.len - 1 : Int) : ℚ) * d.step
        + ((d.len - 1 : Int) : ℚ) * -d.step = d.start := by
      ring
    have hB : - -d.step = d.step := by
      ring
    rw [hA, hB]

/-- C7: slicing a progression over its full index range [0, length-1]
yields an observably equal progression: same count and same element
sequence, in both numeric domains, whether shared or exclusively owned. -/
theorem rangeIdentity_claim7 (s u : ArithSeriesInt) (d e : ArithSeriesDbl) (sh1 sh2 : Bool) :
    (1 ≤ s.len →
     resultRep (TclArithSeriesObjRange sh1 s 0 (TclArithSeriesObjLength s - 1)).1 = some u →
     u.len = s.len ∧ elemListInt u = elemListInt s) ∧
    (1 ≤ d.len →
     resultRep (TclArithSeriesObjRangeDbl sh2 d 0 (TclArithSeriesObjLengthDbl d - 1)).1 = some e →
     e.len = d.len ∧ elemListDbl e = elemListDbl d) := by
  constructor
  · intro hlen h
    obtain ⟨hf, hb, hc, hu⟩ := range_rep_eq h
    subst hu
    constructor
    · simp only [TclArithSeriesObjLength]
      omega
    · simp only [elemListInt]
      have h1 : s.start + max (0 : Int) 0 * s.step = s.start := by
        simp
      have h2 : TclArithSeriesObjLength s - 1 - max 0 0 + 1 = s.len := by
        simp only [TclArithSeriesObjLength]
        omega
      rw [h1, h2]
  · intro hlen h
    obtain ⟨hf, hb, hc, he⟩ := range_rep_eq_dbl h
    subst he
    constructor
    · simp only [TclArithSeriesObjLengthDbl]
      omega
    · simp only [elemListDbl]
      have h1 : d.start + ((max (0 : Int) 0 : Int) : ℚ) * d.step = d.start := by
        simp
      have h2 : TclArithSeriesObjLengthDbl d - 1 - max 0 0 + 1 = d.len := by
        simp only [TclArithSeriesObjLengthDbl]
        omega
      rw [h1, h2]

/-- C6, witnessed: double reversal of the five-element progressions
0,1,2,3,4 (integer) and 0.0,1.0,2.0,3.0,4.0 (double), through the in-place
path. -/
theorem reverseInvolution_claim6_witness :
    ((⟨0, 4, 1, 5, none⟩ : ArithSeriesInt).len = (⟨0, 4, 1, 5, none⟩ : ArithSeriesInt).len ∧
      elemListInt ⟨0, 4, 1, 5, none⟩ = elemListInt ⟨0, 4, 1, 5, none⟩) ∧
    ((⟨(0 + ((5 - 1 : Int) : ℚ) * 1) + ((5 - 1 : Int) : ℚ) * -1, 0 + ((5 - 1 : Int) : ℚ) * 1,
        - -1, 5, none⟩ : ArithSeriesDbl).len = (⟨0, 4, 1, 5, none⟩ : ArithSeriesDbl).len ∧
      elemListDbl ⟨(0 + ((5 - 1 : Int) : ℚ) * 1) + ((5 - 1 : Int) : ℚ) * -1,
        0 + ((5 - 1 : Int) : ℚ) * 1, - -1, 5, none⟩ = elemListDbl ⟨0, 4, 1, 5, none⟩) := by
  have h := reverseInvolution_claim6 ⟨0, 4, 1, 5, none⟩ ⟨4, 0, -1, 5, none⟩ ⟨0, 4, 1, 5, none⟩
    ⟨0, 4, 1, 5, none⟩ ⟨0 + ((5 - 1 : Int) : ℚ) * 1, 0, -1, 5, none⟩
    ⟨(0 + ((5 - 1 : Int) : ℚ) * 1) + ((5 - 1 : Int) : ℚ) * -1,
      0 + ((5 - 1 : Int) : ℚ) * 1, - -1, 5, none⟩ false false false false
  exact ⟨h.1 (by decide) (by decide), h.2 (by rfl) (by rfl)⟩

/-- C7, witnessed: the full-range slice of the five-element progressions
0,1,2,3,4 (integer) and 0.0,1.0,2.0,3.0,4.0 (double), through the in-place
path. -/
theorem rangeIdentity_claim7_witness :
    ((⟨0, 4, 1, 5, none⟩ : ArithSeriesInt).len = (⟨0, 4, 1, 5, none⟩ : ArithSeriesInt).len ∧
      elemListInt ⟨0, 4, 1, 5, none⟩ = elemListInt ⟨0, 4, 1, 5, none⟩) ∧
    ((⟨0 + ((0 : Int) : ℚ) * 1, 0 + ((5 - 1 : Int) : ℚ) * 1, 1,
        ratTrunc ((0 + ((5 - 1 : Int) : ℚ) * 1 - (0 + ((0 : Int) : ℚ) * 1) + 1) / 1),
        none⟩ : ArithSeriesDbl).len = (⟨0, 4, 1, 5, none⟩ : ArithSeriesDbl).len ∧
      elemListDbl ⟨0 + ((0 : Int) : ℚ) * 1, 0 + ((5 - 1 : Int) : ℚ) * 1, 1,
        ratTrunc ((0 + ((5 - 1 : Int) : ℚ) * 1 - (0 + ((0 : Int) : ℚ) * 1) + 1) / 1),
        none⟩ = elemListDbl ⟨0, 4, 1, 5, none⟩) := by
  have h := rangeIdentity_claim7 ⟨0, 4, 1, 5, none⟩ ⟨0, 4, 1, 5, none⟩ ⟨0, 4, 1, 5, none⟩
    ⟨0 + ((0 : Int) : ℚ) * 1, 0 + ((5 - 1 : Int) : ℚ) * 1, 1,
      ratTrunc ((0 + ((5 - 1 : Int) : ℚ) * 1 - (0 + ((0 : Int) : ℚ) * 1) + 1) / 1), none⟩
    false false
  exact ⟨h.1 (by decide) (by decide), h.2 (by decide) (by rfl)⟩

/-- Helper: joining nonempty space-terminated chunks and dropping the final
character is the same as separating the chunks by single spaces. -/
theorem join_sep {l : List (List Char)} (hne : l ≠ []) :
    ((l.map fun x => x ++ [' ']).flatten).dropLast = sepBySpaceSpec l := by
  induction l with
  | nil => exact absurd rfl hne
  | cons x xs ih =>
    cases xs with
    | nil =>
      simp [sepBySpaceSpec, List.dropLast_concat]
    | cons y rest =>
      have hjoin : (((y :: rest).map fun x => x ++ [' ']).flatten) ≠ [] := by
        simp
      rw [List.map_cons, List.flatten_cons, List.dropLast_append]
      rw [if_neg (by simp)]
      rw [ih (by simp)]
      simp [sepBySpaceSpec]

/-- C9: the text form is each element's minimal text form in order,
separated by single spaces with the final trailing space dropped (stated
for the integer variant with decimal element rendering, and for the double
variant over any element formatter); a zero count yields the empty string;
and the example start 1, end 10, step 2 has count 5, elements
1, 3, 5, 7, 9 and text form "1 3 5 7 9". -/
theorem textForm_claim9 (s : ArithSeriesInt) (fmt : ℚ → List Char) (d : ArithSeriesDbl) :
    textFormInt s = sepBySpaceSpec ((elemListInt s).map fun x => (toString x).data) ∧
    (s.len = 0 → textFormInt s = []) ∧
    textFormDbl fmt d = sepBySpaceSpec ((elemListDbl d).map fmt) ∧
    TclNewArithSeriesObjInt (some 1) (some 10) (some 2) none = .okSeries ⟨1, 10, 2, 5, none⟩ ∧
    elemListInt ⟨1, 10, 2, 5, none⟩ = [1, 3, 5, 7, 9] ∧
    textFormInt ⟨1, 10, 2, 5, none⟩ = "1 3 5 7 9".data := by
  refine ⟨?_, fun h0 => ?_, ?_, by decide, by decide, by decide⟩
  · by_cases hl : s.len ≤ 0
    · have : s.len.toNat = 0 := Int.toNat_of_nonpos hl
      simp [textFormInt, UpdateStringOfArithSeries, hl, elemListInt, this, sepBySpaceSpec]
    · have hne : (elemListInt s).map (fun x : Int => (toString x).data) ≠ [] := by
        simp [List.map_eq_nil_iff, elemListInt, List.range_eq_nil]
        exact ⟨0, by omega⟩
      have hmm : (elemListInt s).map (fun e : Int => (toString e).data ++ [' '])
          = ((elemListInt s).map fun x : Int => (toString x).data).map
              (fun x => x ++ [' ']) := by
        rw [List.map_map]
        rfl
      rw [textFormInt, UpdateStringOfArithSeries, if_neg hl, hmm]
      exact join_sep hne
  · simp [textFormInt, UpdateStringOfArithSeries, h0]
  · by_cases hl : d.len ≤ 0
    · have : d.len.toNat = 0 := Int.toNat_of_nonpos hl
      simp [textFormDbl, UpdateStringOfArithSeries, hl, elemListDbl, this, sepBySpaceSpec]
    · have hne : (elemListDbl d).map fmt ≠ [] := by
        simp [List.map_eq_nil_iff, elemListDbl, List.range_eq_nil]
        exact ⟨0, by omega⟩
      have hmm : (elemListDbl d).map (fun e => fmt e ++ [' '])
          = ((elemListDbl d).map fmt).map (fun x => x ++ [' ']) := by
        rw [List.map_map]
        rfl
      rw [textFormDbl, UpdateStringOfArithSeries, if_neg hl, hmm]
      exact join_sep hne

/-- C9, witnessed: the spec's explicit-zero-length example (start 10,
end 10, count 0) renders as the empty string. -/
theorem textForm_claim9_witness :
    textFormInt ⟨10, 10, 1, 0, none⟩ = [] :=
  (textForm_claim9 ⟨10, 10, 1, 0, none⟩ (fun _ => []) ⟨0, 0, 1, 0, none⟩).2.1 (by decide)

/-- Helper: if C truncating division makes (d + st)/st negative, then d/st
truncates to at most -2 (so the bounds calculator's 1 + d/st is negative). -/
theorem tdiv_le_neg_two {d st : Int} (hst : st ≠ 0) (h : (d + st).tdiv st < 0) :
    d.tdiv st ≤ -2 := by
  rcases lt_or_gt_of_ne hst with hneg | hpos
  · -- st < 0
    have hu0 : (0 : Int) < -st := by omega
    have e1 : (d + st).tdiv st = -((d + st).tdiv (-st)) := by
      simp [Int.tdiv_neg (d + st) (-st)]
    rw [e1] at h
    have h2 : 0 < (d + st).tdiv (-st) := by omega
    have h3 : 0 < d + st := by
      by_contra hle
      push_neg at hle
      have e4 : (d + st).tdiv (-st) = -((-(d + st)).tdiv (-st)) := by
        conv_lhs => rw [show d + st = -(-(d + st)) from by ring]
        rw [Int.neg_tdiv]
      have e5 : 0 ≤ (-(d + st)).tdiv (-st) := Int.tdiv_nonneg (by omega) (by omega)
      omega
    have h4 : (d + st).tdiv (-st) = (d + st) / (-st) :=
      Int.tdiv_eq_ediv (by omega) (by omega)
    have h6 : 1 * (-st) ≤ d + st := (Int.le_ediv_iff_mul_le hu0).mp (by omega)
    have h8 : d.tdiv (-st) = d / (-st) := Int.tdiv_eq_ediv (by omega) (by omega)
    have h9 : 2 ≤ d / (-st) := (Int.le_ediv_iff_mul_le hu0).mpr (by omega)
    have h10 : d.tdiv st = -(d.tdiv (-st)) := by
      simp [Int.tdiv_neg d (-st)]
    omega
  · -- st > 0
    have h1 : d + st < 0 := by
      by_contra hge
      push_neg at hge
      have : 0 ≤ (d + st).tdiv st := Int.tdiv_nonneg hge (by omega)
      omega
    have e4 : (d + st).tdiv st = -((-(d + st)).tdiv st) := by
      conv_lhs => rw [show d + st = -(-(d + st)) from by ring]
      rw [Int.neg_tdiv]
    rw [e4] at h
    have h2 : 0 < (-(d + st)).tdiv st := by omega
    have h4 : (-(d + st)).tdiv st = (-(d + st)) / st :=
      Int.tdiv_eq_ediv (by omega) (by omega)
    have h6 : 1 * st ≤ -(d + st) := (Int.le_ediv_iff_mul_le hpos).mp (by omega)
    have h8 : (-d).tdiv st = (-d) / st := Int.tdiv_eq_ediv (by omega) (by omega)
    have h9 : 2 ≤ (-d) / st := (Int.le_ediv_iff_mul_le hpos).mpr (by omega)
    have h10 : d.tdiv st = -((-d).tdiv st) := by
      conv_lhs => rw [show d = -(-d) from by ring]
      rw [Int.neg_tdiv]
    omega

/-- C10: construction infers missing parameters with fixed defaults: an
absent start defaults to 0; with start and end given but step absent, the
step defaults to 1 when start < end and to -1 otherwise; an absent end is
computed as start + step*(count-1); and with start, end and step given but
no count, the count is computed as (end - start + step)/step in C
truncating division — as observed on any progression the construction
produces. -/
theorem constructionDefaults_claim10 (s e st l : Int) :
    (∀ t, TclNewArithSeriesObjInt none (some e) (some st) (some l) = .okSeries t →
      t.start = 0) ∧
    (∀ t, TclNewArithSeriesObjInt (some s) (some e) none (some l) = .okSeries t →
      t.step = if s < e then 1 else -1) ∧
    (∀ t, TclNewArithSeriesObjInt (some s) none (some st) (some l) = .okSeries t →
      t.end_ = s + st * (l - 1)) ∧
    (∀ t, TclNewArithSeriesObjInt (some s) (some e) (some st) none = .okSeries t →
      t.len = (e - s + st).tdiv st) := by
  refine ⟨fun t h => ?_, fun t h => ?_, fun t h => ?_, fun t h => ?_⟩
  · simp only [TclNewArithSeriesObjInt, TclNewArithSeriesInt] at h
    repeat' split at h
    all_goals try simp_all
    all_goals rw [← h]
  · simp only [TclNewArithSeriesObjInt, TclNewArithSeriesInt] at h
    repeat' split at h
    all_goals try simp_all
    all_goals rw [← h]
  · simp only [TclNewArithSeriesObjInt, TclNewArithSeriesInt] at h
    repeat' split at h
    all_goals try simp_all
    all_goals rw [← h]
  · by_cases hst : st = 0
    · rw [hst, newObjInt_step_zero] at h
      exact absurd h (by simp)
    · rw [newObjInt_no_len hst] at h
      by_cases hg : listSizeTMax < (e - s + st).tdiv st
      · rw [if_pos hg] at h
        exact absurd h (by simp)
      · rw [if_neg hg] at h
        by_cases hnn : 0 ≤ (e - s + st).tdiv st
        · simp only [TclNewArithSeriesInt, if_pos hnn] at h
          by_cases hz : (e - s + st).tdiv st ≤ 0
          · rw [if_pos hz] at h
            exact absurd h (by simp)
          · rw [if_neg hz] at h
            injection h with h2
            rw [← h2]
        · simp only [TclNewArithSeriesInt, if_neg hnn] at h
          have hneg : (e - s + st).tdiv st < 0 := by omega
          have hle : (e - s).tdiv st ≤ -2 := tdiv_le_neg_two hst hneg
          have hAL : ArithSeriesLen s e st = -1 := by
            simp only [ArithSeriesLen]
            rw [if_neg hst, if_pos (by omega)]
          rw [hAL, if_pos (by omega)] at h
          exact absurd h (by simp)

/-- C10, witnessed at start 0, end 10, step 2, count 5 and the
configurations that leave one parameter out. -/
theorem constructionDefaults_claim10_witness :
    (⟨0, 10, 2, 5, none⟩ : ArithSeriesInt).start = 0 ∧
    (⟨0, 10, 1, 5, none⟩ : ArithSeriesInt).step = (if (0 : Int) < 10 then 1 else -1) ∧
    (⟨0, 8, 2, 5, none⟩ : ArithSeriesInt).end_ = 0 + 2 * (5 - 1) ∧
    (⟨0, 10, 2, 6, none⟩ : ArithSeriesInt).len = ((10 : Int) - 0 + 2).tdiv 2 := by
  have h := constructionDefaults_claim10 0 10 2 5
  exact ⟨h.1 ⟨0, 10, 2, 5, none⟩ (by decide), h.2.1 ⟨0, 10, 1, 5, none⟩ (by decide),
    h.2.2.1 ⟨0, 8, 2, 5, none⟩ (by decide), h.2.2.2 ⟨0, 10, 2, 6, none⟩ (by decide)⟩
